import Mathlib

/-!
Verification development for the crowbond-scale UDP scale bridge.

The definitions below are shallow embeddings of the TypeScript source:

* `splitFirst`, `extractFrames`, `stepBuf`, `runDecoder` model the frame
  decoder `XtremScale.handleMessage` (STX/ETX extraction loop plus the
  length-gated fallback path).
* `parseWeightData` models `XtremScale.parseWeightData`, including a faithful
  executable model of the two JavaScript regular expressions used to extract
  the weight and unit.
* `LinkState` with `onMessage`, `fireValidationTimeout`, `closeLink`,
  `sendCommandM`, `startStreamingM`, `stopStreamingM` models the per-link
  connection state machine of `XtremScale` (handshake validation, timers,
  streaming commands).
* `handleWeightUpdateM`, `stopStreamingIdM`, `stopStreamingEntry` model the
  registry `ScaleManager` (weight-change deduplication and streaming fan-out).
-/

namespace CrowbondScale

/-- Start-of-frame marker `0x02` (`'\u0002'` in the source). -/
def stx : Char := Char.ofNat 2

/-- End-of-frame marker `0x03` (`'\u0003'` in the source). -/
def etx : Char := Char.ofNat 3

/-- Split a list at the first occurrence of `c`: returns the (c-free) part
before the first `c` and the part after it, or `none` when `c` does not
occur.  This models `String.indexOf` together with the two `substring`
calls of the extraction loop. -/
def splitFirst (c : Char) : List Char → Option (List Char × List Char)
  | [] => none
  | x :: xs =>
    if x = c then some ([], xs)
    else
      match splitFirst c xs with
      | none => none
      | some (a, b) => some (x :: a, b)

/-- Fuelled version of the `while` loop of `handleMessage`:
`while (buf.includes(STX) && buf.includes(ETX)) { ... }`.  Each iteration
finds the first STX, the first ETX after it, emits the text strictly between
them as one frame, and continues on the text after the ETX; the loop stops
when no such pair remains.  The fuel is only a termination device; any fuel
of at least the buffer length computes the loop exactly (see
`extractLoopAux_fuel`). -/
def extractLoopAux : Nat → List Char → List (List Char) × List Char
  | 0, b => ([], b)
  | Nat.succ n, b =>
    match splitFirst stx b with
    | none => ([], b)
    | some (_, post) =>
      match splitFirst etx post with
      | none => ([], b)
      | some (mid, rest) =>
        let p := extractLoopAux n rest
        (mid :: p.1, p.2)

/-- The STX/ETX extraction loop of `handleMessage`, returning the emitted
frames in order together with the remaining buffer. -/
def extractFrames (b : List Char) : List (List Char) × List Char :=
  extractLoopAux b.length b

/-- The residue left by the extraction loop never contains a complete
STX..ETX pair: either it has no STX at all, or no ETX after its first STX. -/
def NoCompletePair (b : List Char) : Prop :=
  splitFirst stx b = none ∨
    ∃ pre post, splitFirst stx b = some (pre, post) ∧ splitFirst etx post = none

/-- One call of `handleMessage(message)` on a decoder whose buffer is `buf`:
append the chunk, drain all complete STX..ETX frames, then the fallback path
(`// Alternative parsing for messages without STX/ETX`): when the remaining
buffer has no STX and its length exceeds 4, strip the first byte and the last
3 bytes; if the stripped text has length at least 15 it is parsed as a frame
and the buffer is cleared, otherwise the buffer is left as it is.  Returns
(frames from the marker loop, frames from the fallback path, new buffer). -/
def stepBuf (buf chunk : List Char) : List (List Char) × List (List Char) × List Char :=
  let e := extractFrames (buf ++ chunk)
  let b1 := e.2
  if stx ∉ b1 ∧ 4 < b1.length then
    if 15 ≤ ((b1.drop 1).take (b1.length - 4)).length then
      (e.1, [(b1.drop 1).take (b1.length - 4)], [])
    else (e.1, [], b1)
  else (e.1, [], b1)

/-- Observable decoder state: all frames handed to `parseWeightData` from the
marker loop, all frames handed to it from the fallback path, and the current
`rxBuffer`. -/
structure DecState where
  marker : List (List Char)
  fallback : List (List Char)
  buffer : List Char
  deriving DecidableEq

def decodeStep (st : DecState) (chunk : List Char) : DecState :=
  let r := stepBuf st.buffer chunk
  ⟨st.marker ++ r.1, st.fallback ++ r.2.1, r.2.2⟩

/-- Feeding a sequence of datagram payloads through `handleMessage`, starting
from the initial empty buffer. -/
def runDecoder (chunks : List (List Char)) : DecState :=
  chunks.foldl decodeStep ⟨[], [], []⟩

/-- The extraction loop instrumented with positions: each frame is paired
with the index (relative to the start of the scanned text plus `off`) of the
ETX marker that closed it. -/
def extractPosAux : Nat → Nat → List Char → List (List Char × Nat)
  | 0, _, _ => []
  | Nat.succ n, off, b =>
    match splitFirst stx b with
    | none => []
    | some (pre, post) =>
      match splitFirst etx post with
      | none => []
      | some (mid, rest) =>
        (mid, off + pre.length + 1 + mid.length)
          :: extractPosAux n (off + pre.length + mid.length + 2) rest

/-- Frames of the whole input together with the positions of their closing
markers. -/
def extractFramesPos (b : List Char) : List (List Char × Nat) :=
  extractPosAux b.length 0 b

/-- JavaScript `\s` restricted to the ASCII whitespace characters (the only
whitespace that can occur in this ASCII wire protocol). -/
def isSpaceJS (c : Char) : Bool :=
  c = ' ' || c = '\t' || c = '\n' || c = '\x0d' || c = '\x0b' || c = '\x0c'

/-- Match `[+-]?\d+(?:\.\d+)?` at the head of the input: optional sign,
one or more digits, optionally a decimal point followed by one or more
digits.  Returns the matched text and the remaining input.  Greedy matching
is exact here: shortening `\d+` always leaves a digit as the next character,
which can never help the rest of the pattern, so the regex backtracking
never produces a different result. -/
def parseNumber (l : List Char) : Option (List Char × List Char) :=
  let sign : List Char × List Char :=
    match l with
    | c :: cs => if c = '+' || c = '-' then ([c], cs) else ([], l)
    | [] => ([], [])
  let ds := sign.2.takeWhile Char.isDigit
  let l2 := sign.2.drop ds.length
  if ds = [] then none
  else
    match l2 with
    | '.' :: l3 =>
      let fs := l3.takeWhile Char.isDigit
      if fs = [] then some (sign.1 ++ ds, l2)
      else some (sign.1 ++ ds ++ '.' :: fs, l3.drop fs.length)
    | _ => some (sign.1 ++ ds, l2)

/-- Match `([+-]?\d+(?:\.\d+)?)(?:\s*)([a-zA-Z]+)` at the head of the input:
a number, optional spaces, then one or more ASCII letters (the unit, matched
greedily).  Returns (number text, unit text). -/
def matchNumUnitAt (l : List Char) : Option (List Char × List Char) :=
  match parseNumber l with
  | none => none
  | some (num, r1) =>
    let r2 := r1.dropWhile isSpaceJS
    let us := r2.takeWhile Char.isAlpha
    if us = [] then none else some (num, us)

/-- Match `W\s*([+-]?\d+(?:\.\d+)?)(?:\s*)([a-zA-Z]+)` at the head of the
input. -/
def tryWPatternAt (l : List Char) : Option (List Char × List Char) :=
  match l with
  | 'W' :: r => matchNumUnitAt (r.dropWhile isSpaceJS)
  | _ => none

/-- Leftmost-match search, as a JavaScript regex engine performs it: try the
pattern at every start position from the left and return the first success. -/
def scanFirst (f : List Char → Option (List Char × List Char)) :
    List Char → Option (List Char × List Char)
  | [] => none
  | c :: rest =>
    match f (c :: rest) with
    | some r => some r
    | none => scanFirst f rest

/-- The parsed weight reading built by `parseWeightData` for `'r'` frames and
for "other" frames (`this.weightData = {...}` in the source).  Timestamps are
not modelled. -/
structure WeightData where
  raw : List Char
  address : List Char
  command : List Char
  weight : List Char
  unit : List Char
  display : List Char
  deriving DecidableEq

/-- An event emitted by `parseWeightData`: a `weight` event or a `status`
event.  `parseWeightData` emits nothing for frames shorter than 4
characters. -/
inductive ScaleEvent where
  | weight (w : WeightData)
  | status (raw : List Char)
  deriving DecidableEq

/-- Model of `XtremScale.parseWeightData` (the version with the W-segment
regular expression).  For frames of length ≥ 4: address = chars [0,2),
command = chars [2,4), type char = chars [4,5) when present.  Type `'r'`
tries the W-segment regex on the whole frame, then the generic number+unit
regex on the text after offset 5; type `'e'` emits a status event carrying
the raw frame; anything else emits a weight event whose weight/display is
the text from offset 4 (or the whole frame when nothing follows). -/
def parseWeightData (data : List Char) : Option ScaleEvent :=
  if data.length < 4 then none
  else
    let address := data.take 2
    let command := (data.drop 2).take 2
    let typeChar := (data.drop 4).take 1
    if typeChar = ['r'] then
      let wu : List Char × List Char :=
        match scanFirst tryWPatternAt data with
        | some r => r
        | none =>
          match scanFirst matchNumUnitAt (data.drop 5) with
          | some r => r
          | none => ([], [])
      some (.weight
        { raw := data, address := address, command := command,
          weight := wu.1, unit := wu.2,
          display := if wu.2 = [] then wu.1 else wu.1 ++ ' ' :: wu.2 })
    else if typeChar = ['e'] then some (.status data)
    else
      let value := if 4 < data.length then data.drop 4 else data
      some (.weight
        { raw := data, address := address, command := command,
          weight := value, unit := [], display := value })

/-- Observable state of one `XtremScale` link (the version with handshake
validation).  Timer fields record whether the corresponding timer is
currently scheduled; `connectPending`/`connectResolved`/`connectRejected`
record the state of the promise returned by `connect()`;
`reconnectCount` counts the reconnection timers currently scheduled
(`reconnectTimer` holds at most one, and `scheduleReconnect` always clears
any existing one before setting a new one, so this is 0 or 1);
`parsedFrames` records every frame handed to `parseWeightData`. -/
structure LinkState where
  scaleIP : String
  remotePort : Nat
  isConnected : Bool := false
  connectionValidated : Bool := false
  validationTimerActive : Bool := false
  heartbeatActive : Bool := false
  reconnectCount : Nat := 0
  connectPending : Bool := false
  connectResolved : Bool := false
  connectRejected : Option String := none
  clientOpen : Bool := false
  errorCount : Nat := 0
  streamingMode : Bool := false
  lastHeartbeatSet : Bool := false
  rxBuffer : List Char := []
  parsedFrames : List (List Char) := []
  deriving DecidableEq

/-- A fresh link for the given configured remote endpoint
(constructor; `connect()` not yet called). -/
def initLink (ip : String) (rport : Nat) : LinkState :=
  { scaleIP := ip, remotePort := rport }

/-- `connect()` up to the socket creation: a socket exists and the returned
promise is pending. -/
def startConnect (st : LinkState) : LinkState :=
  { st with clientOpen := true, connectPending := true }

/-- The bind callback of `connect()`: the validation timer is started
(`connectionTimeout = setTimeout(...)`). -/
def bindComplete (st : LinkState) : LinkState :=
  { st with validationTimerActive := true }

/-- The socket `message` handler installed by `connect()`.  Datagrams whose
source is not exactly the configured remote address and port are dropped
(`return`) with no other effect.  The first datagram from the configured
endpoint is consumed as handshake confirmation: it validates the connection,
cancels the validation timer, resets the error counter, starts the
heartbeat, resolves the pending connect, and is not parsed.  Every later
datagram from that endpoint updates the activity timestamp and is handed to
`handleMessage`. -/
def onMessage (st : LinkState) (addr : String) (port : Nat) (msg : List Char) : LinkState :=
  if addr ≠ st.scaleIP ∨ port ≠ st.remotePort then st
  else if st.connectionValidated = false then
    { st with
      connectionValidated := true
      validationTimerActive := false
      isConnected := true
      errorCount := 0
      heartbeatActive := true
      connectResolved := if st.connectPending then true else st.connectResolved
      connectPending := false }
  else
    let r := stepBuf st.rxBuffer msg
    { st with
      lastHeartbeatSet := true
      rxBuffer := r.2.2
      parsedFrames := st.parsedFrames ++ r.1 ++ r.2.1 }

/-- The validation timer callback (`connectionTimeout`): if it fires while
the connection is not yet validated, it marks the link disconnected, tears
down the socket, schedules a reconnection (`scheduleReconnect`, which clears
any existing reconnection timer and sets exactly one), and rejects the
pending connect with `Scale at <ip> is not responding`. -/
def fireValidationTimeout (st : LinkState) : LinkState :=
  if st.validationTimerActive = false then st
  else if st.connectionValidated then { st with validationTimerActive := false }
  else
    { st with
      validationTimerActive := false
      isConnected := false
      clientOpen := false
      reconnectCount := 1
      connectRejected :=
        if st.connectPending then some ("Scale at " ++ st.scaleIP ++ " is not responding")
        else st.connectRejected
      connectPending := false }

/-- `close()`: stops the heartbeat, clears the reconnection timer, stops
streaming when connected and streaming (errors are caught), and closes the
socket.  The validation timer of a connect() still in flight is a local
variable of `connect()` and is not touched. -/
def closeLink (st : LinkState) : LinkState :=
  let st1 := { st with heartbeatActive := false, reconnectCount := 0 }
  let st2 :=
    if st1.isConnected && st1.streamingMode then { st1 with streamingMode := false } else st1
  if st2.clientOpen then { st2 with clientOpen := false, isConnected := false } else st2

/-- `sendCommand(command, skipConnectionCheck)`: rejects when the link is
not connected (unless the check is skipped) or the socket is gone; otherwise
the outcome is that of the UDP send, which the model takes as the oracle
`sendOk`.  Returns whether the returned promise resolves. -/
def sendCommandM (st : LinkState) (skipCheck : Bool) (sendOk : Bool) : Bool :=
  if skipCheck = false && st.isConnected = false then false
  else if st.clientOpen = false then false
  else sendOk

/-- `startStreaming()`: sets the streaming flag first, then sends the start
command; the promise resolves only if the send does. -/
def startStreamingM (st : LinkState) (sendOk : Bool) : LinkState × Bool :=
  let st1 := { st with streamingMode := true }
  (st1, sendCommandM st1 false sendOk)

/-- `stopStreaming()`: clears the streaming flag first, then sends the stop
command; the promise resolves only if the send does. -/
def stopStreamingM (st : LinkState) (sendOk : Bool) : LinkState × Bool :=
  let st1 := { st with streamingMode := false }
  (st1, sendCommandM st1 false sendOk)

/-- Association-list lookup, modelling `Map.get`. -/
def alookup {β : Type} : List (String × β) → String → Option β
  | [], _ => none
  | (k, v) :: r, id => if k = id then some v else alookup r id

/-- Association-list update, modelling `Map.set`. -/
def aset {β : Type} : List (String × β) → String → β → List (String × β)
  | [], id, d => [(id, d)]
  | (k, v) :: r, id, d => if k = id then (k, d) :: r else (k, v) :: aset r id d

/-- `ScaleManager.handleWeightUpdate(scaleId, weightData)` restricted to its
observable effect: `m` is the `lastWeightValues` cache, `d` the display
string of the incoming reading, `publishOk` whether
`realTimeProvider.updateWeight` succeeds.  Returns the new cache and the
number of publish calls made (0 or 1).  The cache is updated only after a
successful publish; a failed publish rethrows before the `set`. -/
def handleWeightUpdateM (m : List (String × String)) (id d : String) (publishOk : Bool) :
    List (String × String) × Nat :=
  if alookup m id = some d then (m, 0)
  else if publishOk then (aset m id d, 1) else (m, 1)

/-- `Set.delete` on the streaming-intent set. -/
def removeStr (l : List String) (id : String) : List String :=
  l.filter (fun x => x ≠ id)

/-- `ScaleManager.stopStreaming(scaleId)` with an id: unknown id throws
`Scale <id> not found`; a connected link gets the stop command (whose
failure propagates before the intent set is touched); a link that is not
connected is skipped and the id is still removed from the intent set.
`scales` maps ids to the link's `isConnected` flag; `sendErr` is the
outcome of `scale.stopStreaming()` (`none` = resolves).  Returns the new
intent set and the number of stop commands attempted. -/
def stopStreamingIdM (scales : List (String × Bool)) (streaming : List String)
    (id : String) (sendErr : Option String) : Except String (List String × Nat) :=
  match alookup scales id with
  | none => .error ("Scale " ++ id ++ " not found")
  | some conn =>
    if conn then
      match sendErr with
      | some e => .error e
      | none => .ok (removeStr streaming id, 1)
    else .ok (removeStr streaming id, 0)

/-- One entry of the fan-out (no-id) form of `ScaleManager.stopStreaming`:
failures are caught per link, a not-connected link is skipped but still
untracked.  Returns the new intent set and the number of stop commands
attempted. -/
def stopStreamingEntry (streaming : List String) (entry : String × Bool)
    (sendErr : Option String) : List String × Nat :=
  if entry.2 then
    match sendErr with
    | some _ => (streaming, 1)
    | none => (removeStr streaming entry.1, 1)
  else (removeStr streaming entry.1, 0)

/-- The fan-out form over all registered links (`Promise.allSettled`): it
never rejects, by construction of its type. -/
def stopStreamingAllM (scales : List (String × Bool)) (streaming : List String)
    (sendErr : String → Option String) : List String × Nat :=
  scales.foldl
    (fun acc e =>
      let r := stopStreamingEntry acc.1 e (sendErr e.1)
      (r.1, acc.2 + r.2))
    (streaming, 0)

/-- The decoded weight frame without trailing segments, from the unit
tests. -/
def frameA : List Char := "0100r01071AW   0.000kg".toList

/-- The decoded weight frame with trailing tare (`T...`) and sequence
(`S...`) segments, from the unit tests. -/
def frameB : List Char := "0100r01071AW   0.000kgT   0.000kgS01561".toList

/-- A link whose `connect()` is in flight: socket created, local port bound,
validation timer running, no datagram received yet. -/
def awaitingLink (ip : String) (rport : Nat) : LinkState :=
  bindComplete (startConnect (initLink ip rport))

theorem splitFirst_some {c : Char} :
    ∀ {l a b : List Char}, splitFirst c l = some (a, b) → l = a ++ c :: b ∧ c ∉ a := by
  intro l
  induction l with
  | nil => intro a b h; simp [splitFirst] at h
  | cons x xs ih =>
    intro a b h
    by_cases hx : x = c
    · simp [splitFirst, hx] at h
      obtain ⟨ha, hb⟩ := h
      subst ha; subst hb; subst hx
      simp
    · simp [splitFirst, hx] at h
      cases hsp : splitFirst c xs with
      | none => rw [hsp] at h; simp at h
      | some p =>
        rw [hsp] at h
        cases p with
        | mk a' b' =>
          simp at h
          obtain ⟨ha, hb⟩ := h
          obtain ⟨hl, hna⟩ := ih hsp
          subst ha; subst hb
          constructor
          · rw [hl]; simp
          · simp only [List.mem_cons, not_or]
            exact ⟨fun hc => hx hc.symm, hna⟩

theorem splitFirst_none_iff {c : Char} :
    ∀ {l : List Char}, splitFirst c l = none ↔ c ∉ l := by
  intro l
  induction l with
  | nil => simp [splitFirst]
  | cons x xs ih =>
    by_cases hx : x = c
    · simp [splitFirst, hx]
    · simp only [splitFirst, if_neg hx]
      cases hsp : splitFirst c xs with
      | none =>
        simp only [List.mem_cons]
        constructor
        · intro _ hmem
          rcases hmem with h | h
          · exact hx h.symm
          · exact (ih.mp hsp) h
        · intro _; trivial
      | some p =>
        cases p with
        | mk a b =>
          simp only [List.mem_cons]
          constructor
          · intro h; simp at h
          · intro h
            exfalso
            exact (h (Or.inr (by
              obtain ⟨hl, _⟩ := splitFirst_some hsp
              rw [hl]; simp)))

theorem splitFirst_append_some {c : Char} :
    ∀ {l a b : List Char} (y : List Char),
      splitFirst c l = some (a, b) → splitFirst c (l ++ y) = some (a, b ++ y) := by
  intro l
  induction l with
  | nil => intro a b y h; simp [splitFirst] at h
  | cons x xs ih =>
    intro a b y h
    by_cases hx : x = c
    · simp [splitFirst, hx] at h ⊢
      obtain ⟨ha, hb⟩ := h
      subst ha; subst hb; exact ⟨rfl, rfl⟩
    · simp only [splitFirst, if_neg hx] at h
      cases hsp : splitFirst c xs with
      | none => rw [hsp] at h; simp at h
      | some p =>
        rw [hsp] at h
        cases p with
        | mk a' b' =>
          simp at h
          obtain ⟨ha, hb⟩ := h
          subst ha; subst hb
          have h2 := ih y hsp
          simp only [List.cons_append, splitFirst, if_neg hx, List.append_eq, h2]

theorem splitFirst_append_none {c : Char} :
    ∀ {l : List Char} (y : List Char), splitFirst c l = none →
      splitFirst c (l ++ y) =
        match splitFirst c y with
        | none => none
        | some (a, b) => some (l ++ a, b) := by
  intro l
  induction l with
  | nil =>
    intro y _
    simp only [List.nil_append]
    cases splitFirst c y with
    | none => rfl
    | some p => cases p with | mk a b => simp
  | cons x xs ih =>
    intro y h
    by_cases hx : x = c
    · simp [splitFirst, hx] at h
    · simp only [splitFirst, if_neg hx] at h
      cases hsp : splitFirst c xs with
      | none =>
        have h2 := ih y hsp
        simp only [List.cons_append, splitFirst, if_neg hx, List.append_eq, h2]
        cases splitFirst c y with
        | none => rfl
        | some p => cases p with | mk a b => simp
      | some p => rw [hsp] at h; cases p with | mk a b => simp at h

theorem splitFirst_length {c : Char} {l a b : List Char}
    (h : splitFirst c l = some (a, b)) : l.length = a.length + b.length + 1 := by
  obtain ⟨hl, _⟩ := splitFirst_some h
  rw [hl]; simp; omega

theorem extractLoopAux_fuel :
    ∀ (n : Nat) {m : Nat} {b : List Char}, b.length ≤ n → b.length ≤ m →
      extractLoopAux n b = extractLoopAux m b := by
  intro n
  induction n with
  | zero =>
    intro m b hn _
    have hb : b = [] := List.length_eq_zero.mp (Nat.le_zero.mp hn)
    subst hb
    cases m with
    | zero => rfl
    | succ m => simp [extractLoopAux, splitFirst]
  | succ n ih =>
    intro m b hn hm
    cases m with
    | zero =>
      have hb : b = [] := List.length_eq_zero.mp (Nat.le_zero.mp hm)
      subst hb
      simp [extractLoopAux, splitFirst]
    | succ m =>
      simp only [extractLoopAux]
      split
      · rfl
      · rename_i pre post hs1
        split
        · rfl
        · rename_i mid rest hs2
          have l1 := splitFirst_length hs1
          have l2 := splitFirst_length hs2
          have hr1 : rest.length ≤ n := by omega
          have hr2 : rest.length ≤ m := by omega
          rw [ih hr1 hr2]

/-- One-step unfolding of `extractFrames`, matching one iteration of the
source loop. -/
theorem extractFrames_eq (b : List Char) :
    extractFrames b =
      match splitFirst stx b with
      | none => ([], b)
      | some (_, post) =>
        match splitFirst etx post with
        | none => ([], b)
        | some (mid, rest) =>
          let p := extractFrames rest
          (mid :: p.1, p.2) := by
  cases hb : b with
  | nil => simp [extractFrames, extractLoopAux, splitFirst]
  | cons x xs =>
    show extractLoopAux (x :: xs).length (x :: xs) = _
    simp only [List.length_cons, extractLoopAux]
    split
    · rfl
    · rename_i pre post hs1
      split
      · rfl
      · rename_i mid rest hs2
        have l1 := splitFirst_length hs1
        have l2 := splitFirst_length hs2
        have hfuel : extractLoopAux xs.length rest = extractLoopAux rest.length rest := by
          apply extractLoopAux_fuel
          · simp at l1; omega
          · exact Nat.le_refl _
        rw [hfuel]
        rfl

theorem noCompletePair_extractFrames (b : List Char) :
    extractFrames b = ([], b) → NoCompletePair b := by
  intro h
  rw [extractFrames_eq] at h
  cases hs1 : splitFirst stx b with
  | none => exact Or.inl hs1
  | some p1 =>
    cases p1 with
    | mk pre post =>
      cases hs2 : splitFirst etx post with
      | none => exact Or.inr ⟨pre, post, hs1, hs2⟩
      | some p2 =>
        cases p2 with
        | mk mid rest =>
          rw [hs1] at h
          simp only [hs2] at h
          exact absurd (congrArg Prod.fst h) (by simp)

theorem extractFrames_of_noCompletePair {b : List Char} (h : NoCompletePair b) :
    extractFrames b = ([], b) := by
  rw [extractFrames_eq]
  rcases h with h | ⟨pre, post, h1, h2⟩
  · rw [h]
  · rw [h1]
    simp only [h2]

theorem extractFrames_cons_eq {b pre post mid rest : List Char}
    (hs1 : splitFirst stx b = some (pre, post))
    (hs2 : splitFirst etx post = some (mid, rest)) :
    extractFrames b = (mid :: (extractFrames rest).1, (extractFrames rest).2) := by
  rw [extractFrames_eq, hs1]
  simp only [hs2]

theorem extractFrames_residue :
    ∀ (n : Nat) (b : List Char), b.length ≤ n → NoCompletePair (extractFrames b).2 := by
  intro n
  induction n with
  | zero =>
    intro b hb
    have hb0 : b = [] := List.length_eq_zero.mp (Nat.le_zero.mp hb)
    subst hb0
    exact Or.inl rfl
  | succ n ih =>
    intro b hb
    cases hs1 : splitFirst stx b with
    | none =>
      have hex : extractFrames b = ([], b) :=
        extractFrames_of_noCompletePair (Or.inl hs1)
      rw [hex]
      exact Or.inl hs1
    | some p1 =>
      cases p1 with
      | mk pre post =>
        cases hs2 : splitFirst etx post with
        | none =>
          have hex : extractFrames b = ([], b) :=
            extractFrames_of_noCompletePair (Or.inr ⟨pre, post, hs1, hs2⟩)
          rw [hex]
          exact Or.inr ⟨pre, post, hs1, hs2⟩
        | some p2 =>
          cases p2 with
          | mk mid rest =>
            rw [extractFrames_cons_eq hs1 hs2]
            have l1 := splitFirst_length hs1
            have l2 := splitFirst_length hs2
            exact ih rest (by omega)

/-- Incremental extraction: running the loop on `x ++ y` emits exactly the
frames of `x` followed by the frames obtained by appending `y` to the
residue of `x`. -/
theorem extractFrames_append :
    ∀ (n : Nat) (x : List Char), x.length ≤ n → ∀ (y : List Char),
      (extractFrames (x ++ y)).1
        = (extractFrames x).1 ++ (extractFrames ((extractFrames x).2 ++ y)).1
      ∧ (extractFrames (x ++ y)).2 = (extractFrames ((extractFrames x).2 ++ y)).2 := by
  intro n
  induction n with
  | zero =>
    intro x hx y
    have hx0 : x = [] := List.length_eq_zero.mp (Nat.le_zero.mp hx)
    subst hx0
    constructor
    · simp [extractFrames, extractLoopAux]
    · simp [extractFrames, extractLoopAux]
  | succ n ih =>
    intro x hx y
    cases hs1 : splitFirst stx x with
    | none =>
      have hex : extractFrames x = ([], x) :=
        extractFrames_of_noCompletePair (Or.inl hs1)
      rw [hex]
      simp
    | some p1 =>
      cases p1 with
      | mk pre post =>
        cases hs2 : splitFirst etx post with
        | none =>
          have hex : extractFrames x = ([], x) :=
            extractFrames_of_noCompletePair (Or.inr ⟨pre, post, hs1, hs2⟩)
          rw [hex]
          simp
        | some p2 =>
          cases p2 with
          | mk mid rest =>
            have l1 := splitFirst_length hs1
            have l2 := splitFirst_length hs2
            have hex := extractFrames_cons_eq hs1 hs2
            have hs1y : splitFirst stx (x ++ y) = some (pre, post ++ y) :=
              splitFirst_append_some y hs1
            have hs2y : splitFirst etx (post ++ y) = some (mid, rest ++ y) :=
              splitFirst_append_some y hs2
            have hexy := extractFrames_cons_eq hs1y hs2y
            obtain ⟨ihf, ihr⟩ := ih rest (by omega) y
            constructor
            · rw [hexy, hex]
              simp only [ihf]
              simp
            · rw [hexy, hex]
              exact ihr

/-- Prepending text that contains no STX does not change the frames the loop
emits. -/
theorem extractFrames_nostx_prepend {b : List Char} (h : splitFirst stx b = none)
    (d : List Char) : (extractFrames (b ++ d)).1 = (extractFrames d).1 := by
  rw [extractFrames_eq (b ++ d), extractFrames_eq d]
  rw [splitFirst_append_none d h]
  cases hs : splitFirst stx d with
  | none => rfl
  | some p =>
    cases p with
    | mk a post =>
      cases hs2 : splitFirst etx post with
      | none => simp only [hs2]
      | some p2 => cases p2 with | mk mid rest => simp only [hs2]

theorem stepBuf_marker (buf chunk : List Char) :
    (stepBuf buf chunk).1 = (extractFrames (buf ++ chunk)).1 := by
  rw [stepBuf]
  split
  · split <;> rfl
  · rfl

theorem stepBuf_buffer (buf chunk : List Char) :
    (stepBuf buf chunk).2.2 = [] ∨
      ((stepBuf buf chunk).2.2 = (extractFrames (buf ++ chunk)).2
        ∧ ((stepBuf buf chunk).2.2 = [] ∨ stx ∈ (stepBuf buf chunk).2.2
            ∨ (stepBuf buf chunk).2.2 = (extractFrames (buf ++ chunk)).2)) := by
  rw [stepBuf]
  split
  · split
    · exact Or.inl rfl
    · exact Or.inr ⟨rfl, Or.inr (Or.inr rfl)⟩
  · exact Or.inr ⟨rfl, Or.inr (Or.inr rfl)⟩

/-- The buffer cleared by the fallback path contains no STX, so dropping it
does not lose any marker-delimited frame. -/
theorem stepBuf_cases (buf chunk : List Char) :
    (stepBuf buf chunk).2.2 = (extractFrames (buf ++ chunk)).2 ∨
      ((stepBuf buf chunk).2.2 = [] ∧ stx ∉ (extractFrames (buf ++ chunk)).2) := by
  rw [stepBuf]
  split
  · rename_i hcond
    split
    · exact Or.inr ⟨rfl, hcond.1⟩
    · exact Or.inl rfl
  · exact Or.inl rfl

/-- Invariant of the incremental decoder: for any future input `d`, the
frames the one-shot loop finds in (everything seen so far) ++ `d` are exactly
the marker frames already emitted followed by the frames the loop finds in
the current buffer ++ `d`. -/
theorem runDecoder_invariant (chunks : List (List Char)) :
    ∀ (d : List Char),
      (extractFrames (chunks.flatten ++ d)).1
        = (runDecoder chunks).marker ++ (extractFrames ((runDecoder chunks).buffer ++ d)).1 := by
  induction chunks using List.reverseRecOn with
  | nil => intro d; simp [runDecoder]
  | append_singleton cs c ih =>
    intro d
    have hrun : runDecoder (cs ++ [c]) = decodeStep (runDecoder cs) c := by
      rw [runDecoder, List.foldl_append]
      rfl
    have hflat : (cs ++ [c]).flatten = cs.flatten ++ c := by simp
    have hstep := extractFrames_append (((runDecoder cs).buffer ++ c).length)
      ((runDecoder cs).buffer ++ c) (Nat.le_refl _) d
    have hmain : (extractFrames (cs.flatten ++ (c ++ d))).1
        = (runDecoder cs).marker ++ (extractFrames ((runDecoder cs).buffer ++ (c ++ d))).1 :=
      ih (c ++ d)
    rw [hrun, hflat]
    show (extractFrames (cs.flatten ++ c ++ d)).1
      = ((runDecoder cs).marker ++ (stepBuf (runDecoder cs).buffer c).1)
          ++ (extractFrames ((stepBuf (runDecoder cs).buffer c).2.2 ++ d)).1
    rw [List.append_assoc cs.flatten c d, hmain, stepBuf_marker]
    rw [← List.append_assoc (runDecoder cs).buffer c d]
    rw [hstep.1]
    rcases stepBuf_cases (runDecoder cs).buffer c with hbuf | ⟨hbuf, hnostx⟩
    · rw [hbuf, List.append_assoc]
    · rw [hbuf]
      have hnone : splitFirst stx (extractFrames ((runDecoder cs).buffer ++ c)).2 = none :=
        splitFirst_none_iff.mpr hnostx
      rw [extractFrames_nostx_prepend hnone d]
      simp

/-- The decoder buffer never holds a complete STX..ETX pair between calls. -/
theorem runDecoder_buffer_residue (chunks : List (List Char)) :
    NoCompletePair (runDecoder chunks).buffer := by
  induction chunks using List.reverseRecOn with
  | nil => exact Or.inl rfl
  | append_singleton cs c ih =>
    have hrun : runDecoder (cs ++ [c]) = decodeStep (runDecoder cs) c := by
      rw [runDecoder, List.foldl_append]
      rfl
    rw [hrun]
    show NoCompletePair (stepBuf (runDecoder cs).buffer c).2.2
    rcases stepBuf_cases (runDecoder cs).buffer c with hbuf | ⟨hbuf, _⟩
    · rw [hbuf]
      exact extractFrames_residue ((runDecoder cs).buffer ++ c).length _ (Nat.le_refl _)
    · rw [hbuf]
      exact Or.inl rfl

/-- The marker frames emitted by the incremental decoder over any chunk
sequence are exactly the frames the loop extracts from the concatenated
input in one pass. -/
theorem runDecoder_marker_eq (chunks : List (List Char)) :
    (runDecoder chunks).marker = (extractFrames chunks.flatten).1 := by
  have h := runDecoder_invariant chunks []
  have hres : extractFrames (runDecoder chunks).buffer = ([], (runDecoder chunks).buffer) :=
    extractFrames_of_noCompletePair (runDecoder_buffer_residue chunks)
  rw [List.append_nil, List.append_nil, hres] at h
  simpa using h.symm

theorem extractPosAux_fuel :
    ∀ (n : Nat) {m : Nat} (off : Nat) {b : List Char}, b.length ≤ n → b.length ≤ m →
      extractPosAux n off b = extractPosAux m off b := by
  intro n
  induction n with
  | zero =>
    intro m off b hn _
    have hb : b = [] := List.length_eq_zero.mp (Nat.le_zero.mp hn)
    subst hb
    cases m with
    | zero => rfl
    | succ m => simp [extractPosAux, splitFirst]
  | succ n ih =>
    intro m off b hn hm
    cases m with
    | zero =>
      have hb : b = [] := List.length_eq_zero.mp (Nat.le_zero.mp hm)
      subst hb
      simp [extractPosAux, splitFirst]
    | succ m =>
      simp only [extractPosAux]
      split
      · rfl
      · rename_i pre post hs1
        split
        · rfl
        · rename_i mid rest hs2
          have l1 := splitFirst_length hs1
          have l2 := splitFirst_length hs2
          have hr1 : rest.length ≤ n := by omega
          have hr2 : rest.length ≤ m := by omega
          rw [ih _ hr1 hr2]

theorem extractPosAux_map_fst :
    ∀ (n : Nat) (off : Nat) (b : List Char),
      (extractPosAux n off b).map Prod.fst = (extractLoopAux n b).1 := by
  intro n
  induction n with
  | zero => intro off b; rfl
  | succ n ih =>
    intro off b
    simp only [extractPosAux, extractLoopAux]
    cases hs1 : splitFirst stx b with
    | none => rfl
    | some p1 =>
      cases p1 with
      | mk pre post =>
        cases hs2 : splitFirst etx post with
        | none => simp only [hs2]; rfl
        | some p2 =>
          cases p2 with
          | mk mid rest =>
            simp only [hs2, List.map_cons, ih]

theorem extractFramesPos_map_fst (b : List Char) :
    (extractFramesPos b).map Prod.fst = (extractFrames b).1 :=
  extractPosAux_map_fst b.length 0 b

theorem extractPosAux_pos_lower :
    ∀ (n : Nat) (off : Nat) (b : List Char) (fp : List Char × Nat),
      fp ∈ extractPosAux n off b → off < fp.2 := by
  intro n
  induction n with
  | zero => intro off b fp h; simp [extractPosAux] at h
  | succ n ih =>
    intro off b fp h
    simp only [extractPosAux] at h
    cases hs1 : splitFirst stx b with
    | none => rw [hs1] at h; simp at h
    | some p1 =>
      cases p1 with
      | mk pre post =>
        rw [hs1] at h
        cases hs2 : splitFirst etx post with
        | none => simp only [hs2] at h; simp at h
        | some p2 =>
          cases p2 with
          | mk mid rest =>
            simp only [hs2, List.mem_cons] at h
            rcases h with h | h
            · subst h; simp; omega
            · have := ih (off + pre.length + mid.length + 2) rest fp h
              omega

/-- Closing-marker positions are strictly increasing: frames come out in the
exact order their ETX appears in the input. -/
theorem extractPosAux_chain :
    ∀ (n : Nat) (off : Nat) (b : List Char),
      List.Chain' (fun a b => a < b) ((extractPosAux n off b).map Prod.snd) := by
  intro n
  induction n with
  | zero => intro off b; simp [extractPosAux]
  | succ n ih =>
    intro off b
    simp only [extractPosAux]
    cases hs1 : splitFirst stx b with
    | none => simp
    | some p1 =>
      cases p1 with
      | mk pre post =>
        cases hs2 : splitFirst etx post with
        | none => simp only [hs2]; simp
        | some p2 =>
          cases p2 with
          | mk mid rest =>
            simp only [hs2, List.map_cons]
            rw [List.chain'_cons']
            constructor
            · intro q hq
              have hmem : q ∈ (extractPosAux n (off + pre.length + mid.length + 2) rest).map Prod.snd :=
                List.mem_of_mem_head? hq
              obtain ⟨fp, hfp, hq2⟩ := List.mem_map.mp hmem
              have := extractPosAux_pos_lower n _ rest fp hfp
              omega
            · exact ih _ rest

/-- Every emitted frame sits immediately before an actual ETX occurrence at
its recorded position. -/
theorem extractPosAux_location :
    ∀ (n : Nat) (off : Nat) (b : List Char) (fp : List Char × Nat),
      fp ∈ extractPosAux n off b →
        ∃ u v, b = u ++ etx :: v ∧ off + u.length = fp.2 ∧ fp.1 <:+ u := by
  intro n
  induction n with
  | zero => intro off b fp h; simp [extractPosAux] at h
  | succ n ih =>
    intro off b fp h
    simp only [extractPosAux] at h
    cases hs1 : splitFirst stx b with
    | none => rw [hs1] at h; simp at h
    | some p1 =>
      cases p1 with
      | mk pre post =>
        rw [hs1] at h
        cases hs2 : splitFirst etx post with
        | none => simp only [hs2] at h; simp at h
        | some p2 =>
          cases p2 with
          | mk mid rest =>
            simp only [hs2, List.mem_cons] at h
            obtain ⟨hb, _⟩ := splitFirst_some hs1
            obtain ⟨hpost, _⟩ := splitFirst_some hs2
            rcases h with h | h
            · subst h
              refine ⟨pre ++ stx :: mid, rest, ?_, ?_, ?_⟩
              · rw [hb, hpost]; simp
              · simp; omega
              · exact ⟨pre ++ [stx], by simp⟩
            · obtain ⟨u, v, hrest, hlen, hsuf⟩ := ih _ rest fp h
              refine ⟨pre ++ stx :: mid ++ etx :: u, v, ?_, ?_, ?_⟩
              · rw [hb, hpost, hrest]; simp
              · simp; omega
              · exact hsuf.trans (by
                  refine ⟨pre ++ stx :: mid ++ [etx], ?_⟩
                  simp)

theorem alookup_aset {β : Type} :
    ∀ (m : List (String × β)) (id : String) (d : β), alookup (aset m id d) id = some d := by
  intro m
  induction m with
  | nil => intro id d; simp [aset, alookup]
  | cons kv r ih =>
    intro id d
    cases kv with
    | mk k v =>
      by_cases hk : k = id
      · simp [aset, alookup, hk]
      · simp only [aset, alookup, if_neg hk]
        exact ih id d

theorem not_mem_removeStr (l : List String) (id : String) : id ∉ removeStr l id := by
  intro h
  have := List.of_mem_filter h
  simp at this

/-- C1: `parseWeightData` is claimed to ignore the tare and sequence
segments, so that the frame `0100r01071AW   0.000kgT   0.000kgS01561`
yields weight `0.000` and unit `kg`, the same as
`0100r01071AW   0.000kg`.  The code disagrees: the greedy `[a-zA-Z]+` unit
match of the W-segment regex also absorbs the `T` that introduces the tare
segment, so the long frame yields unit `kgT` and display `0.000 kgT` while
the short frame yields unit `kg`.  This theorem evaluates the embedded code
on both frames (and checks that the STX/ETX-wrapped datagram decodes to the
long frame). -/
theorem parseWeightData_tare_not_ignored :
    parseWeightData frameA
      = some (.weight
          { raw := frameA, address := "01".toList, command := "00".toList,
            weight := "0.000".toList, unit := "kg".toList, display := "0.000 kg".toList })
    ∧ parseWeightData frameB
      = some (.weight
          { raw := frameB, address := "01".toList, command := "00".toList,
            weight := "0.000".toList, unit := "kgT".toList, display := "0.000 kgT".toList })
    ∧ stepBuf [] (stx :: frameB ++ [etx]) = ([frameB], [], [])
    ∧ "kgT".toList ≠ "kg".toList := by
  refine ⟨by decide, by decide, by decide, by decide⟩

/-- C2 counterexample: the claim says the fallback path clears the buffer
unconditionally, even when the length check fails.  On the buffer
`abcdefgh` (no STX, length 8 > 4, stripped middle `bcde` of length 4 < 15)
the code emits nothing and leaves the buffer untouched instead of clearing
it. -/
theorem fallback_clear_counterexample :
    stx ∉ "abcdefgh".toList
    ∧ 4 < "abcdefgh".toList.length
    ∧ ((("abcdefgh".toList.drop 1).take ("abcdefgh".toList.length - 4)).length < 15)
    ∧ (stepBuf [] "abcdefgh".toList).1 = []
    ∧ (stepBuf [] "abcdefgh".toList).2.1 = []
    ∧ (stepBuf [] "abcdefgh".toList).2.2 = "abcdefgh".toList
    ∧ "abcdefgh".toList ≠ ([] : List Char) := by
  refine ⟨by decide, by decide, by decide, by decide, by decide, by decide, by decide⟩

/-- C2 (amended): in the fallback framing path, for every buffer state with
no start marker and length greater than 4, `handleMessage` strips the first
byte and the last 3 bytes and emits the middle substring as a frame only if
its length is at least 15; the buffer is cleared only in that case — when
the length check fails nothing is emitted and the buffer is left unchanged,
retaining the partial data for subsequent appends. -/
theorem fallback_framing_gated_clear (buf chunk : List Char)
    (h1 : stx ∉ (extractFrames (buf ++ chunk)).2)
    (h2 : 4 < (extractFrames (buf ++ chunk)).2.length) :
    (15 ≤ (((extractFrames (buf ++ chunk)).2.drop 1).take
          ((extractFrames (buf ++ chunk)).2.length - 4)).length →
        stepBuf buf chunk
          = ((extractFrames (buf ++ chunk)).1,
              [((extractFrames (buf ++ chunk)).2.drop 1).take
                ((extractFrames (buf ++ chunk)).2.length - 4)], []))
    ∧ ((((extractFrames (buf ++ chunk)).2.drop 1).take
          ((extractFrames (buf ++ chunk)).2.length - 4)).length < 15 →
        stepBuf buf chunk
          = ((extractFrames (buf ++ chunk)).1, [], (extractFrames (buf ++ chunk)).2)) := by
  constructor
  · intro hlen
    rw [stepBuf, if_pos ⟨h1, h2⟩, if_pos hlen]
  · intro hlen
    rw [stepBuf, if_pos ⟨h1, h2⟩, if_neg (by omega)]

/-- C2 witness: the repo test's non-delimited message
`X0100r01071AW   0.000kgXXX` passes the length gate, is emitted stripped,
and clears the buffer; both branches of the amended statement are
exercised through the theorem. -/
theorem fallback_framing_gated_clear_witness :
    stepBuf [] "X0100r01071AW   0.000kgXXX".toList
      = ([], ["0100r01071AW   0.000kg".toList], []) := by
  have h := fallback_framing_gated_clear [] "X0100r01071AW   0.000kgXXX".toList
    (by decide) (by decide)
  have h2 := h.1 (by decide)
  rw [h2]
  decide

/-- C7: for any sequence of chunks appended to the frame decoder, the frames
emitted on the marker path after any prefix of the stream are exactly the
frames of the cumulative input seen so far, each closed by an ETX occurring
inside that seen input, and their closing-marker positions are strictly
increasing — frames come out in the exact order their closing marker
appears, and never before it has been seen. -/
theorem frames_emitted_in_marker_order (chunks : List (List Char)) (i : Nat) :
    (runDecoder (chunks.take i)).marker
        = (extractFramesPos ((chunks.take i).flatten)).map Prod.fst
    ∧ List.Chain' (fun a b => a < b)
        ((extractFramesPos ((chunks.take i).flatten)).map Prod.snd)
    ∧ ∀ fp ∈ extractFramesPos ((chunks.take i).flatten),
        ∃ u v, (chunks.take i).flatten = u ++ etx :: v ∧ u.length = fp.2 ∧ fp.1 <:+ u := by
  refine ⟨?_, ?_, ?_⟩
  · rw [extractFramesPos_map_fst, runDecoder_marker_eq]
  · exact extractPosAux_chain _ 0 _
  · intro fp hfp
    obtain ⟨u, v, hu, hlen, hsuf⟩ := extractPosAux_location _ 0 _ fp hfp
    exact ⟨u, v, hu, by omega, hsuf⟩

/-- C7 witness: on the concrete stream `[STX a b ETX, STX c d ETX]` the
decoder emits `ab` then `cd`, and the second frame's closing marker sits at
position 7 of the cumulative input, after the frame text. -/
theorem frames_emitted_in_marker_order_witness :
    (runDecoder ([[stx, 'a', 'b', etx], [stx, 'c', 'd', etx]].take 2)).marker
        = [['a', 'b'], ['c', 'd']]
    ∧ ∃ u v, ([[stx, 'a', 'b', etx], [stx, 'c', 'd', etx]].take 2).flatten
        = u ++ etx :: v ∧ u.length = 7 ∧ ['c', 'd'] <:+ u := by
  obtain ⟨h1, _, h3⟩ :=
    frames_emitted_in_marker_order [[stx, 'a', 'b', etx], [stx, 'c', 'd', etx]] 2
  constructor
  · rw [h1]; decide
  · exact h3 (['c', 'd'], 7) (by decide)

/-- C3 counterexample: the claim says `close()` cancels the validation
timer and that a `connect()` in flight at `close()` never rejects afterward
and never schedules a reconnection afterward.  For a link awaiting its
handshake, `close()` leaves the validation timer scheduled (it is a local
variable of `connect()`), so when it later fires it rejects the pending
`connect()` and schedules a reconnection — after `close()` completed. -/
theorem close_stale_connect_counterexample :
    (closeLink (awaitingLink "192.168.1.100" 4444)).validationTimerActive = true
    ∧ (fireValidationTimeout (closeLink (awaitingLink "192.168.1.100" 4444))).connectRejected
        = some "Scale at 192.168.1.100 is not responding"
    ∧ (fireValidationTimeout (closeLink (awaitingLink "192.168.1.100" 4444))).reconnectCount
        = 1 := by
  refine ⟨by decide, by decide, by decide⟩

/-- C3 (amended): `close()` cancels the heartbeat and reconnection timers
but not the validation timer of a `connect()` still in flight; such a
pending `connect()` can still be rejected afterward when the validation
timeout fires, and that firing also schedules one reconnection attempt. -/
theorem close_timers_and_stale_connect (st : LinkState) :
    (closeLink st).heartbeatActive = false
    ∧ (closeLink st).reconnectCount = 0
    ∧ (closeLink st).validationTimerActive = st.validationTimerActive
    ∧ (st.connectionValidated = false → st.connectPending = true →
        st.validationTimerActive = true →
          (fireValidationTimeout (closeLink st)).connectRejected
              = some ("Scale at " ++ st.scaleIP ++ " is not responding")
            ∧ (fireValidationTimeout (closeLink st)).reconnectCount = 1) := by
  have hclose : (closeLink st).heartbeatActive = false
      ∧ (closeLink st).reconnectCount = 0
      ∧ (closeLink st).validationTimerActive = st.validationTimerActive
      ∧ (closeLink st).connectionValidated = st.connectionValidated
      ∧ (closeLink st).connectPending = st.connectPending
      ∧ (closeLink st).scaleIP = st.scaleIP
      ∧ (closeLink st).connectRejected = st.connectRejected := by
    rw [closeLink]
    split <;> split <;> simp
  obtain ⟨h1, h2, h3, h4, h5, h6, h7⟩ := hclose
  refine ⟨h1, h2, h3, ?_⟩
  intro hval hpend htimer
  rw [fireValidationTimeout]
  rw [if_neg (by rw [h3, htimer]; simp), if_neg (by rw [h4, hval]; simp)]
  constructor
  · simp [h5, hpend, h6]
  · rfl

/-- C3 witness: instantiating the amended statement on a concrete link
awaiting its handshake. -/
theorem close_timers_and_stale_connect_witness :
    (closeLink (awaitingLink "10.0.0.5" 4444)).heartbeatActive = false
    ∧ (closeLink (awaitingLink "10.0.0.5" 4444)).reconnectCount = 0
    ∧ (closeLink (awaitingLink "10.0.0.5" 4444)).validationTimerActive
        = (awaitingLink "10.0.0.5" 4444).validationTimerActive
    ∧ (fireValidationTimeout (closeLink (awaitingLink "10.0.0.5" 4444))).connectRejected
        = some ("Scale at " ++ "10.0.0.5" ++ " is not responding")
    ∧ (fireValidationTimeout (closeLink (awaitingLink "10.0.0.5" 4444))).reconnectCount = 1 := by
  obtain ⟨h1, h2, h3, h4⟩ := close_timers_and_stale_connect (awaitingLink "10.0.0.5" 4444)
  obtain ⟨h5, h6⟩ := h4 (by decide) (by decide) (by decide)
  exact ⟨h1, h2, h3, h5, h6⟩

/-- C4: the first datagram from exactly the configured remote address and
port is consumed as handshake confirmation — it is not handed to the frame
decoder (`rxBuffer` and the parsed-frame log are unchanged), it marks the
link connected, cancels the validation timer, resets the error counter,
starts the heartbeat and resolves the pending `connect()`; a datagram from
any other source address or port leaves the whole state unchanged. -/
theorem handshake_first_datagram (st : LinkState) (addr : String) (port : Nat)
    (msg : List Char) :
    (addr = st.scaleIP → port = st.remotePort → st.connectionValidated = false →
        (onMessage st addr port msg).isConnected = true
        ∧ (onMessage st addr port msg).connectionValidated = true
        ∧ (onMessage st addr port msg).validationTimerActive = false
        ∧ (onMessage st addr port msg).errorCount = 0
        ∧ (onMessage st addr port msg).heartbeatActive = true
        ∧ (onMessage st addr port msg).connectPending = false
        ∧ (st.connectPending = true → (onMessage st addr port msg).connectResolved = true)
        ∧ (onMessage st addr port msg).rxBuffer = st.rxBuffer
        ∧ (onMessage st addr port msg).parsedFrames = st.parsedFrames)
    ∧ ((addr ≠ st.scaleIP ∨ port ≠ st.remotePort) → onMessage st addr port msg = st) := by
  constructor
  · intro haddr hport hval
    rw [onMessage, if_neg (by simp [haddr, hport]), if_pos hval]
    refine ⟨rfl, rfl, rfl, rfl, rfl, rfl, ?_, rfl, rfl⟩
    intro hpend
    simp [hpend]
  · intro hmism
    rw [onMessage, if_pos hmism]

/-- C4 witness: a matching handshake datagram on an awaiting link, and a
datagram from the wrong port dropped with no effect. -/
theorem handshake_first_datagram_witness :
    (onMessage (awaitingLink "192.168.1.50" 4444) "192.168.1.50" 4444 frameA).isConnected = true
    ∧ (onMessage (awaitingLink "192.168.1.50" 4444) "192.168.1.50" 4444 frameA).rxBuffer
        = (awaitingLink "192.168.1.50" 4444).rxBuffer
    ∧ (onMessage (awaitingLink "192.168.1.50" 4444) "192.168.1.50" 4444 frameA).connectResolved
        = true
    ∧ onMessage (awaitingLink "192.168.1.50" 4444) "192.168.1.50" 9999 frameA
        = awaitingLink "192.168.1.50" 4444 := by
  obtain ⟨h1, h2⟩ :=
    handshake_first_datagram (awaitingLink "192.168.1.50" 4444) "192.168.1.50" 4444 frameA
  obtain ⟨ha, _, _, _, _, _, hres, hbuf, _⟩ := h1 rfl rfl (by decide)
  refine ⟨ha, hbuf, hres (by decide), ?_⟩
  exact (handshake_first_datagram (awaitingLink "192.168.1.50" 4444) "192.168.1.50" 9999
    frameA).2 (Or.inr (by decide))

/-- C6: a link that bound successfully but never received a datagram from
the expected remote endpoint within the validation timeout: the timer
callback rejects the pending `connect()` with the not-responding error,
tears down the socket, and at the moment of rejection exactly one
reconnection attempt is scheduled. -/
theorem validation_timeout_schedules_reconnect (st : LinkState)
    (h1 : st.validationTimerActive = true) (h2 : st.connectionValidated = false)
    (h3 : st.connectPending = true) :
    (fireValidationTimeout st).connectRejected
        = some ("Scale at " ++ st.scaleIP ++ " is not responding")
    ∧ (fireValidationTimeout st).clientOpen = false
    ∧ (fireValidationTimeout st).isConnected = false
    ∧ (fireValidationTimeout st).reconnectCount = 1
    ∧ (fireValidationTimeout st).connectPending = false := by
  rw [fireValidationTimeout, if_neg (by rw [h1]; simp), if_neg (by rw [h2]; simp)]
  refine ⟨?_, rfl, rfl, rfl, rfl⟩
  simp [h3]

/-- C6 witness: the validation timeout on a concrete awaiting link. -/
theorem validation_timeout_schedules_reconnect_witness :
    (fireValidationTimeout (awaitingLink "10.1.2.3" 4444)).connectRejected
        = some ("Scale at " ++ "10.1.2.3" ++ " is not responding")
    ∧ (fireValidationTimeout (awaitingLink "10.1.2.3" 4444)).clientOpen = false
    ∧ (fireValidationTimeout (awaitingLink "10.1.2.3" 4444)).reconnectCount = 1 := by
  obtain ⟨h1, h2, _, h4, _⟩ :=
    validation_timeout_schedules_reconnect (awaitingLink "10.1.2.3" 4444)
      (by decide) (by decide) (by decide)
  exact ⟨h1, h2, h4⟩

/-- C9: `startStreaming` sets the streaming flag to `true` and
`stopStreaming` sets it to `false` unconditionally, before the command is
sent: the flag keeps its new value whatever the send outcome, and when the
send fails the operation's promise does not resolve even though the flag
already changed. -/
theorem streaming_flag_set_before_send (st : LinkState) (ok : Bool) :
    (startStreamingM st ok).1.streamingMode = true
    ∧ (stopStreamingM st ok).1.streamingMode = false
    ∧ (startStreamingM st false).2 = false
    ∧ (stopStreamingM st false).2 = false := by
  refine ⟨rfl, rfl, ?_, ?_⟩
  · rw [startStreamingM, sendCommandM]
    split
    · rfl
    · split <;> rfl
  · rw [stopStreamingM, sendCommandM]
    split
    · rfl
    · split <;> rfl

/-- C5: weight-change deduplication in the registry — an incoming weight
event is forwarded to the telemetry sink only if its display value differs
from the last display cached for that id, a successful forward updates the
cache, and two consecutive readings with identical display strings produce
exactly one publish call, not two. -/
theorem weight_dedup_single_publish (m : List (String × String)) (id d : String)
    (h : alookup m id ≠ some d) :
    (handleWeightUpdateM m id d true).2 = 1
    ∧ alookup (handleWeightUpdateM m id d true).1 id = some d
    ∧ (handleWeightUpdateM (handleWeightUpdateM m id d true).1 id d true).2 = 0
    ∧ (handleWeightUpdateM m id d true).2
        + (handleWeightUpdateM (handleWeightUpdateM m id d true).1 id d true).2 = 1
    ∧ ∀ (c : List (String × String)) (ok : Bool),
        ((handleWeightUpdateM c id d ok).2 = 0 ↔ alookup c id = some d) := by
  have h1 : handleWeightUpdateM m id d true = (aset m id d, 1) := by
    rw [handleWeightUpdateM, if_neg h, if_pos rfl]
  have h2 : alookup (aset m id d) id = some d := alookup_aset m id d
  have h3 : handleWeightUpdateM (aset m id d) id d true = (aset m id d, 0) := by
    rw [handleWeightUpdateM, if_pos h2]
  refine ⟨by rw [h1], by rw [h1]; exact h2, by rw [h1]; rw [h3], by rw [h1, h3]; rfl, ?_⟩
  intro c ok
  rw [handleWeightUpdateM]
  by_cases hc : alookup c id = some d
  · rw [if_pos hc]
    simp [hc]
  · rw [if_neg hc]
    constructor
    · intro hn
      cases ok with
      | false => simp at hn
      | true => simp at hn
    · intro hn
      exact absurd hn hc

/-- C5 witness: a fresh cache and two identical readings for one scale id
produce one publish. -/
theorem weight_dedup_single_publish_witness :
    (handleWeightUpdateM [] "scale-1" "1.000 kg" true).2 = 1
    ∧ (handleWeightUpdateM (handleWeightUpdateM [] "scale-1" "1.000 kg" true).1
        "scale-1" "1.000 kg" true).2 = 0
    ∧ (handleWeightUpdateM [] "scale-1" "1.000 kg" true).2
        + (handleWeightUpdateM (handleWeightUpdateM [] "scale-1" "1.000 kg" true).1
            "scale-1" "1.000 kg" true).2 = 1 := by
  obtain ⟨h1, _, h3, h4, _⟩ :=
    weight_dedup_single_publish [] "scale-1" "1.000 kg" (by decide)
  exact ⟨h1, h3, h4⟩

/-- C8: a failed forward leaves the per-id cache untouched, so the next
reading — with the same or a different display value — is forwarded
again. -/
theorem failed_forward_keeps_cache (m : List (String × String)) (id d : String) :
    (handleWeightUpdateM m id d false).1 = m
    ∧ (alookup m id ≠ some d → (handleWeightUpdateM m id d false).2 = 1)
    ∧ ∀ d2, alookup m id ≠ some d2 →
        (handleWeightUpdateM (handleWeightUpdateM m id d false).1 id d2 true).2 = 1 := by
  have hfst : (handleWeightUpdateM m id d false).1 = m := by
    rw [handleWeightUpdateM]
    by_cases hc : alookup m id = some d
    · rw [if_pos hc]
    · rw [if_neg hc]
      simp
  refine ⟨hfst, ?_, ?_⟩
  · intro h
    rw [handleWeightUpdateM, if_neg h]
    simp
  · intro d2 h2
    rw [hfst, handleWeightUpdateM, if_neg h2, if_pos rfl]

/-- C8 witness: a failed forward of `2.000 kg` keeps the cached `1.000 kg`,
and the retry of the same display publishes again. -/
theorem failed_forward_keeps_cache_witness :
    (handleWeightUpdateM [("s", "1.000 kg")] "s" "2.000 kg" false).1 = [("s", "1.000 kg")]
    ∧ (handleWeightUpdateM [("s", "1.000 kg")] "s" "2.000 kg" false).2 = 1
    ∧ (handleWeightUpdateM (handleWeightUpdateM [("s", "1.000 kg")] "s" "2.000 kg" false).1
        "s" "2.000 kg" true).2 = 1 := by
  obtain ⟨h1, h2, h3⟩ := failed_forward_keeps_cache [("s", "1.000 kg")] "s" "2.000 kg"
  exact ⟨h1, h2 (by decide), h3 "2.000 kg" (by decide)⟩

/-- C10: for a registered id whose link reports `isConnected` false, the
registry's `stopStreaming(id)` resolves without sending the stop command
and still removes the id from the streaming-intent set; the per-link step
of the fan-out (no-id) form skips the send and untracks the id in the same
way. -/
theorem stop_streaming_skips_disconnected (scales : List (String × Bool))
    (streaming : List String) (id : String) (sendErr : Option String)
    (f : String → Option String)
    (h : alookup scales id = some false) :
    stopStreamingIdM scales streaming id sendErr = .ok (removeStr streaming id, 0)
    ∧ id ∉ removeStr streaming id
    ∧ stopStreamingEntry streaming (id, false) (f id) = (removeStr streaming id, 0) := by
  refine ⟨?_, not_mem_removeStr streaming id, ?_⟩
  · rw [stopStreamingIdM.eq_def, h]
    rfl
  · simp [stopStreamingEntry]

/-- C10 witness: a disconnected scale in a two-scale registry. -/
theorem stop_streaming_skips_disconnected_witness :
    stopStreamingIdM [("a", false), ("b", true)] ["a", "b"] "a" (some "boom")
        = .ok (["b"], 0)
    ∧ "a" ∉ removeStr ["a", "b"] "a"
    ∧ stopStreamingEntry ["a", "b"] ("a", false) none = (removeStr ["a", "b"] "a", 0) := by
  obtain ⟨h1, h2, h3⟩ := stop_streaming_skips_disconnected [("a", false), ("b", true)]
    ["a", "b"] "a" (some "boom") (fun _ => none) (by decide)
  refine ⟨?_, h2, h3⟩
  rw [h1]
  rfl

end CrowbondScale
